import Mathlib

/-!
Verification of the reranker-service core (`src/reranker-service`).

Shallow embedding of `CrossEncoderReranker.rerank` / `_score_pairs`
(`models/reranker.py`) and of the `/rerank` HTTP handler (`app.py`).
Model scores (Python floats produced by the cross-encoder) are embedded as
rationals; the model's `predict` is an abstract function from a batch of
(query, content) pairs to a list of scores, following the spec's treatment of
the scoring function as an opaque collaborator.
-/

set_option autoImplicit false

namespace RerankerService

/-- Embeds `Document` (models/schemas.py): an `id` and the text `content`.
The optional `metadata` field is never read by the reranking core
(reranker.py only accesses `doc["id"]` and `doc["content"]`), so it is
omitted from the embedding. -/
structure Document where
  id : String
  content : String
  deriving DecidableEq, Repr

/-- Embeds the result dictionaries built in `CrossEncoderReranker.rerank`
(reranker.py lines 100-104) and `RerankResponse` (models/schemas.py):
`id`, `score`, and a 1-based `rank` (0 before rank assignment). -/
structure ScoredDocument where
  id : String
  score : Rat
  rank : Nat
  deriving DecidableEq, Repr

/-- Auxiliary recursion for `batches`, structurally recursive on a fuel that is
bounded below by the list length: every iteration of the Python slicing loop
consumes at least one element (`(p :: ps).drop batchSize ⊆ ps`), so a fuel of
`l.length` always suffices and the fuel value never influences the result
(`batchesAux_fuel_irrelevant`). -/
def batchesAux {α : Type} (batchSize : Nat) : Nat → List α → List (List α)
  | _, [] => []
  | 0, _ :: _ => []
  | fuel + 1, p :: ps =>
    ((p :: ps).take batchSize) :: batchesAux batchSize fuel (ps.drop (batchSize - 1))

/-- Embeds the batch decomposition performed by the loop in
`CrossEncoderReranker._score_pairs` (reranker.py lines 143-144):
`pairs[i:i+BATCH_SIZE]` for `i = 0, BATCH_SIZE, 2*BATCH_SIZE, ...`.
For `batchSize ≥ 1` this matches Python exactly (`(p :: ps).drop batchSize =
ps.drop (batchSize - 1)`); `BATCH_SIZE < 1` is rejected by
`config.validate_config`, and Python's `range` raises on step 0. -/
def batches {α : Type} (batchSize : Nat) (l : List α) : List (List α) :=
  batchesAux batchSize l.length l

/-- Embeds `CrossEncoderReranker._score_pairs` (reranker.py lines 139-148) with
`self.model.predict` abstracted as `predict`: the per-batch score lists are
accumulated with `all_scores.extend(batch_scores)` in batch order. -/
def scorePairs (predict : List (String × String) → List Rat) (batchSize : Nat)
    (pairs : List (String × String)) : List Rat :=
  ((batches batchSize pairs).map predict).flatten

/-- Embeds the pair construction in `CrossEncoderReranker.rerank`
(reranker.py line 87): `pairs = [[query, doc["content"]] for doc in documents]`. -/
def makePairs (query : String) (documents : List Document) : List (String × String) :=
  documents.map fun doc => (query, doc.content)

/-- Embeds the comparison realised by
`scored_docs.sort(key=lambda x: x["score"], reverse=True)` (reranker.py
line 107): `a` may stay before `b` iff `a.score ≥ b.score`. CPython's sort is
stable and `reverse=True` still preserves the relative order of equal keys;
`List.mergeSort` with this comparator has the same stability property. -/
def scoreDescLe (a b : ScoredDocument) : Bool := decide (b.score ≤ a.score)

/-- Embeds the rank-assignment loop of `CrossEncoderReranker.rerank`
(reranker.py lines 110-113):
`for i, doc in enumerate(scored_docs[:max_results]): doc["rank"] = i + 1`,
with `start` the running value of `i`. -/
def assignRanks (start : Nat) : List ScoredDocument → List ScoredDocument
  | [] => []
  | d :: ds => { d with rank := start + 1 } :: assignRanks (start + 1) ds

/-- Embeds the construction of `scored_docs` in `CrossEncoderReranker.rerank`
(reranker.py lines 98-104): zip documents with their scores (`zip` truncates
to the shorter list, as in Python) and build records with `rank` 0. -/
def scoredDocsOf (predict : List (String × String) → List Rat) (batchSize : Nat)
    (query : String) (documents : List Document) : List ScoredDocument :=
  (documents.zip (scorePairs predict batchSize (makePairs query documents))).map
    fun ds => { id := ds.1.id, score := ds.2, rank := 0 : ScoredDocument }

/-- Embeds `CrossEncoderReranker.rerank` (reranker.py lines 62-121) for the
non-throwing path: early return `[]` on empty `documents`; build pairs; score
them (batched); zip documents with scores; sort descending by score (CPython's
stable sort, embedded as the stable `List.mergeSort`); truncate to
`max_results`; assign ranks `i + 1`. -/
def rerank (predict : List (String × String) → List Rat) (batchSize : Nat)
    (query : String) (documents : List Document) (maxResults : Nat) :
    List ScoredDocument :=
  if documents.isEmpty then []
  else
    assignRanks 0
      (((scoredDocsOf predict batchSize query documents).mergeSort scoreDescLe).take
        maxResults)

/-- Runs a fallible `predict` over a list of batches in order, concatenating
the per-batch score lists; the first raised exception aborts the loop, the
accumulated scores are discarded, and the exception propagates unchanged. -/
def scoreBatchesE {ε : Type} (predict : List (String × String) → Except ε (List Rat)) :
    List (List (String × String)) → Except ε (List Rat)
  | [] => .ok []
  | b :: rest =>
    match predict b with
    | .error e => .error e
    | .ok batchScores =>
      match scoreBatchesE predict rest with
      | .error e => .error e
      | .ok restScores => .ok (batchScores ++ restScores)

/-- Embeds `CrossEncoderReranker._score_pairs` when the model's `predict` may
raise (reranker.py lines 139-152): batches are scored in order; the first
failure aborts the loop, the accumulated scores are discarded, and the
exception is re-raised unchanged by the `except` clause (line 152). -/
def scorePairsE {ε : Type} (predict : List (String × String) → Except ε (List Rat))
    (batchSize : Nat) (pairs : List (String × String)) : Except ε (List Rat) :=
  scoreBatchesE predict (batches batchSize pairs)

/-- Embeds `CrossEncoderReranker.rerank` with a fallible scoring function
(reranker.py lines 85-125): any exception from `_score_pairs` is logged and
re-raised unchanged by the `except` clause at lines 123-125, so no result list
is produced on failure. -/
def rerankE {ε : Type} (predict : List (String × String) → Except ε (List Rat))
    (batchSize : Nat) (query : String) (documents : List Document)
    (maxResults : Nat) : Except ε (List ScoredDocument) :=
  if documents.isEmpty then .ok []
  else
    match scorePairsE predict batchSize (makePairs query documents) with
    | .error e => .error e
    | .ok scores =>
      .ok (assignRanks 0
        ((((documents.zip scores).map fun ds =>
            { id := ds.1.id, score := ds.2, rank := 0 : ScoredDocument }).mergeSort
          scoreDescLe).take maxResults))

/-- Embeds the Python exceptions distinguished by the `/rerank` handler
(app.py lines 116-121): `fastapi.HTTPException` (a subclass of `Exception`
but not of `ValueError`), `ValueError`, and any other exception. -/
inductive PyExc where
  | httpException (status : Nat) (detail : String)
  | valueError (msg : String)
  | otherError (msg : String)
  deriving DecidableEq, Repr

/-- Embeds Python `str(e)` for the exceptions of `PyExc`; Starlette's
`HTTPException.__str__` renders as `"{status_code}: {detail}"`. -/
def excStr : PyExc → String
  | .httpException status detail => toString status ++ ": " ++ detail
  | .valueError msg => msg
  | .otherError msg => msg

/-- Outcome of one `/rerank` handler invocation: a 200 body, or an HTTP error
status with its detail string. -/
inductive HandlerOutcome where
  | ok (body : List ScoredDocument)
  | httpError (status : Nat) (detail : String)
  deriving DecidableEq, Repr

/-- Embeds `request.max_results or 20` (app.py line 111): Python's `or`
replaces both `None` and `0` (falsy) by the default 20. -/
def effectiveMaxResults : Option Nat → Nat
  | none => 20
  | some m => if m = 0 then 20 else m

/-- Embeds the `try:` block of the `/rerank` handler (app.py lines 90-114):
the two validation checks raise `HTTPException(400, ...)` from inside the
`try`, and reranking errors propagate out of `reranker.rerank`. -/
def rerankTryBody (predict : List (String × String) → Except PyExc (List Rat))
    (batchSize : Nat) (query : String) (documents : List Document)
    (maxResults : Option Nat) : Except PyExc (List ScoredDocument) :=
  if query.isEmpty then
    .error (.httpException 400 "Query cannot be empty")
  else if documents.isEmpty then
    .error (.httpException 400 "Documents list cannot be empty")
  else
    rerankE predict batchSize query documents (effectiveMaxResults maxResults)

/-- Embeds the `/rerank` handler (app.py lines 73-121). `rerankerInitialized`
models whether the module-level `CrossEncoderReranker()` constructor succeeded
(app.py lines 52-57). The `except ValueError` clause maps to 400; the
`except Exception` clause catches every other exception — including the
`HTTPException(400, ...)` raised by the in-`try` validation, since
`fastapi.HTTPException` subclasses `Exception` — and re-raises it as
`HTTPException(500, "Internal server error: " + str(e))`. -/
def handleRerank (rerankerInitialized : Bool)
    (predict : List (String × String) → Except PyExc (List Rat))
    (batchSize : Nat) (query : String) (documents : List Document)
    (maxResults : Option Nat) : HandlerOutcome :=
  if !rerankerInitialized then
    .httpError 503 "Reranker service is not available"
  else
    match rerankTryBody predict batchSize query documents maxResults with
    | .ok results => .ok results
    | .error (.valueError msg) => .httpError 400 msg
    | .error e => .httpError 500 ("Internal server error: " ++ excStr e)

/-- Concrete per-pair scoring function for closed evaluations: content
"alpha" scores 2, "beta" scores 1, anything else scores 0. -/
def sampleScore (p : String × String) : Rat :=
  if p.2 = "alpha" then 2 else if p.2 = "beta" then 1 else 0

/-- Concrete batch scorer that applies `sampleScore` to each pair of a batch. -/
def samplePredict (l : List (String × String)) : List Rat := l.map sampleScore

/-- Concrete constant batch scorer: every pair scores 0, producing ties. -/
def zeroPredict (l : List (String × String)) : List Rat := l.map fun _ => 0

/-- Concrete fallible batch scorer that always raises. -/
def failPredict (_ : List (String × String)) : Except String (List Rat) :=
  .error "inference backend failure"

/-- Concrete fallible batch scorer that succeeds with zero scores. -/
def okPredict (l : List (String × String)) : Except PyExc (List Rat) :=
  .ok (l.map fun _ => 0)

/-- Three concrete documents with pairwise distinct ids, listed in descending
`sampleScore` order. -/
def sampleDocs : List Document :=
  [{ id := "a", content := "alpha" }, { id := "b", content := "beta" },
    { id := "c", content := "gamma" }]

/-- Two concrete documents whose scores tie under `zeroPredict`. -/
def tieDocs : List Document :=
  [{ id := "a", content := "alpha" }, { id := "b", content := "beta" }]

/-- The result of `batchesAux` does not depend on the fuel, as long as the fuel
dominates the list length. -/
theorem batchesAux_fuel_irrelevant {α : Type} (bs : Nat) :
    ∀ (fuel fuel' : Nat) (l : List α), l.length ≤ fuel → l.length ≤ fuel' →
      batchesAux bs fuel l = batchesAux bs fuel' l := by
  intro fuel
  induction fuel with
  | zero =>
    intro fuel' l hl _
    have : l = [] := List.eq_nil_of_length_eq_zero (Nat.le_zero.mp hl)
    subst this
    cases fuel' <;> rfl
  | succ fuel ih =>
    intro fuel' l hl hl'
    cases l with
    | nil => cases fuel' <;> rfl
    | cons p ps =>
      cases fuel' with
      | zero => simp at hl'
      | succ fuel'' =>
        simp only [batchesAux, List.cons.injEq, true_and]
        apply ih
        · simp only [List.length_drop]
          simp only [List.length_cons] at hl
          omega
        · simp only [List.length_drop]
          simp only [List.length_cons] at hl'
          omega

theorem batches_nil {α : Type} (bs : Nat) : batches bs ([] : List α) = [] := rfl

/-- One step of the slicing loop: the first batch is `(p :: ps).take bs` and
the loop continues on `(p :: ps).drop bs = ps.drop (bs - 1)` (for `bs ≥ 1`;
for `bs = 0` Python's `range` would raise instead). -/
theorem batches_cons {α : Type} (bs : Nat) (p : α) (ps : List α) :
    batches bs (p :: ps) = ((p :: ps).take bs) :: batches bs (ps.drop (bs - 1)) := by
  show batchesAux bs (ps.length + 1) (p :: ps) = _
  simp only [batchesAux, List.cons.injEq, true_and]
  apply batchesAux_fuel_irrelevant
  · simp only [List.length_drop]
    omega
  · exact Nat.le_refl _

/-- For a positive batch size, concatenating the batches restores the list. -/
theorem flatten_batches_aux {α : Type} (bs : Nat) (hbs : 1 ≤ bs) :
    ∀ (n : Nat) (l : List α), l.length ≤ n → (batches bs l).flatten = l := by
  intro n
  induction n with
  | zero =>
    intro l hl
    have : l = [] := List.eq_nil_of_length_eq_zero (Nat.le_zero.mp hl)
    subst this
    rfl
  | succ n ih =>
    intro l hl
    cases l with
    | nil => rfl
    | cons p ps =>
      obtain ⟨k, rfl⟩ : ∃ k, bs = k + 1 := ⟨bs - 1, by omega⟩
      have hrec := ih (ps.drop (k + 1 - 1)) (by
        simp only [List.length_drop]
        simp only [List.length_cons] at hl
        omega)
      rw [batches_cons, List.flatten_cons, hrec]
      simp only [Nat.add_sub_cancel, List.take_succ_cons, List.cons_append,
        List.take_append_drop]

theorem flatten_batches {α : Type} {bs : Nat} (hbs : 1 ≤ bs) (l : List α) :
    (batches bs l).flatten = l :=
  flatten_batches_aux bs hbs l.length l (Nat.le_refl _)

/-- With a per-pair scoring function applied batchwise, the concatenated batch
scores are exactly the scores of all pairs in order. -/
theorem scorePairs_map (f : String × String → Rat)
    (predict : List (String × String) → List Rat) {bs : Nat} (hbs : 1 ≤ bs)
    (hpred : ∀ l, predict l = l.map f) (pairs : List (String × String)) :
    scorePairs predict bs pairs = pairs.map f := by
  unfold scorePairs
  have hmap : (batches bs pairs).map predict = (batches bs pairs).map (List.map f) :=
    List.map_congr_left fun b _ => hpred b
  rw [hmap, ← List.map_flatten, flatten_batches hbs]

/-- A length-preserving batch scorer yields one score per pair. -/
theorem scorePairs_length (predict : List (String × String) → List Rat)
    {bs : Nat} (hbs : 1 ≤ bs) (hlen : ∀ l, (predict l).length = l.length)
    (pairs : List (String × String)) :
    (scorePairs predict bs pairs).length = pairs.length := by
  unfold scorePairs
  rw [List.length_flatten]
  have h1 : ((batches bs pairs).map predict).map List.length
      = (batches bs pairs).map List.length := by
    rw [List.map_map]
    apply List.map_congr_left
    intro b _
    exact hlen b
  rw [h1, ← List.length_flatten, flatten_batches hbs]

theorem length_assignRanks (s : Nat) (l : List ScoredDocument) :
    (assignRanks s l).length = l.length := by
  induction l generalizing s with
  | nil => rfl
  | cons d ds ih => simp [assignRanks, ih]

/-- Rank assignment starting at `s` puts `s + i + 1` at position `i` and leaves
`id` and `score` unchanged. -/
theorem assignRanks_get (s : Nat) (l : List ScoredDocument) (i : Nat)
    (h : i < (assignRanks s l).length) (h' : i < l.length) :
    (assignRanks s l).get ⟨i, h⟩ = { l.get ⟨i, h'⟩ with rank := s + i + 1 } := by
  induction l generalizing s i with
  | nil => exact absurd h' (by simp)
  | cons d ds ih =>
    cases i with
    | zero => rfl
    | succ n =>
      have hlen : n < (assignRanks (s + 1) ds).length := by
        have h2 := h
        simp only [assignRanks, List.length_cons] at h2
        omega
      have hlen' : n < ds.length := by
        simp only [List.length_cons] at h'
        omega
      have step : (assignRanks s (d :: ds)).get ⟨n + 1, h⟩
          = (assignRanks (s + 1) ds).get ⟨n, hlen⟩ := rfl
      rw [step, ih (s + 1) n hlen hlen']
      have harith : s + 1 + n + 1 = s + (n + 1) + 1 := by omega
      rw [harith]
      rfl

theorem assignRanks_map_id (s : Nat) (l : List ScoredDocument) :
    (assignRanks s l).map (fun d => d.id) = l.map (fun d => d.id) := by
  induction l generalizing s with
  | nil => rfl
  | cons d ds ih => simp [assignRanks, ih]

theorem assignRanks_map_score (s : Nat) (l : List ScoredDocument) :
    (assignRanks s l).map (fun d => d.score) = l.map (fun d => d.score) := by
  induction l generalizing s with
  | nil => rfl
  | cons d ds ih => simp [assignRanks, ih]

/-- The comparator of reranker.py line 107 is transitive. -/
theorem scoreDescLe_trans (a b c : ScoredDocument) :
    scoreDescLe a b → scoreDescLe b c → scoreDescLe a c := by
  intro hab hbc
  simp only [scoreDescLe, decide_eq_true_eq] at hab hbc ⊢
  exact le_trans hbc hab

/-- The comparator of reranker.py line 107 is total. -/
theorem scoreDescLe_total (a b : ScoredDocument) :
    scoreDescLe a b || scoreDescLe b a := by
  simp only [scoreDescLe]
  by_cases h : b.score ≤ a.score
  · simp [h]
  · simp [le_of_not_le h]

/-- Unfolding of `rerank` on a non-empty document list. -/
theorem rerank_cons_eq (predict : List (String × String) → List Rat)
    (batchSize : Nat) (query : String) (d : Document) (ds : List Document)
    (maxResults : Nat) :
    rerank predict batchSize query (d :: ds) maxResults
      = assignRanks 0
          (((scoredDocsOf predict batchSize query (d :: ds)).mergeSort
            scoreDescLe).take maxResults) := rfl

/-- With a positive batch size and a length-preserving scorer, the scored
records are in bijection with the documents. -/
theorem length_scoredDocsOf (predict : List (String × String) → List Rat)
    {bs : Nat} (hbs : 1 ≤ bs) (hlen : ∀ l, (predict l).length = l.length)
    (query : String) (documents : List Document) :
    (scoredDocsOf predict bs query documents).length = documents.length := by
  unfold scoredDocsOf
  rw [List.length_map, List.length_zip,
    scorePairs_length predict hbs hlen (makePairs query documents)]
  simp [makePairs]

/-- Under the same hypotheses, the scored records carry exactly the document
ids, in input order. -/
theorem map_id_scoredDocsOf (predict : List (String × String) → List Rat)
    {bs : Nat} (hbs : 1 ≤ bs) (hlen : ∀ l, (predict l).length = l.length)
    (query : String) (documents : List Document) :
    (scoredDocsOf predict bs query documents).map (fun d => d.id)
      = documents.map (fun d => d.id) := by
  unfold scoredDocsOf
  rw [List.map_map]
  have hfun : ((fun d : ScoredDocument => d.id) ∘
      fun ds : Document × Rat => { id := ds.1.id, score := ds.2, rank := 0 : ScoredDocument })
      = (fun d : Document => d.id) ∘ Prod.fst := rfl
  rw [hfun, ← List.map_map, List.map_fst_zip]
  rw [scorePairs_length predict hbs hlen (makePairs query documents)]
  simp [makePairs]

/-- The ranked output length, as produced by sort-truncate-rank. -/
theorem rerank_length (predict : List (String × String) → List Rat)
    {bs : Nat} (hbs : 1 ≤ bs) (hlen : ∀ l, (predict l).length = l.length)
    (query : String) (documents : List Document) (maxResults : Nat) :
    (rerank predict bs query documents maxResults).length
      = min documents.length maxResults := by
  cases documents with
  | nil => simp [rerank]
  | cons d ds =>
    rw [rerank_cons_eq, length_assignRanks, List.length_take,
      List.length_mergeSort, length_scoredDocsOf predict hbs hlen]
    exact Nat.min_comm _ _

/-- The output scores are pairwise non-increasing along the output order. -/
theorem rerank_scores_pairwise (predict : List (String × String) → List Rat)
    (bs : Nat) (query : String) (documents : List Document) (maxResults : Nat) :
    ((rerank predict bs query documents maxResults).map fun d => d.score).Pairwise
      (fun x y => y ≤ x) := by
  cases documents with
  | nil => simp [rerank]
  | cons d ds =>
    rw [rerank_cons_eq, assignRanks_map_score, List.pairwise_map]
    have hsorted :=
      List.sorted_mergeSort scoreDescLe_trans scoreDescLe_total
        (scoredDocsOf predict bs query (d :: ds))
    have htake := hsorted.sublist (List.take_sublist maxResults _)
    refine htake.imp ?_
    intro a b hab
    simpa [scoreDescLe] using hab

/-- Every output position carries rank `position + 1`. -/
theorem rerank_get_rank (predict : List (String × String) → List Rat)
    (bs : Nat) (query : String) (documents : List Document) (maxResults : Nat)
    (i : Nat) (h : i < (rerank predict bs query documents maxResults).length) :
    ((rerank predict bs query documents maxResults).get ⟨i, h⟩).rank = i + 1 := by
  cases documents with
  | nil => simp [rerank] at h
  | cons d ds =>
    have h2 : i < (assignRanks 0 (((scoredDocsOf predict bs query (d :: ds)).mergeSort
        scoreDescLe).take maxResults)).length := h
    have h' : i < (((scoredDocsOf predict bs query (d :: ds)).mergeSort
        scoreDescLe).take maxResults).length := by
      rw [length_assignRanks] at h2
      exact h2
    calc ((rerank predict bs query (d :: ds) maxResults).get ⟨i, h⟩).rank
        = ((assignRanks 0 (((scoredDocsOf predict bs query (d :: ds)).mergeSort
            scoreDescLe).take maxResults)).get ⟨i, h2⟩).rank := rfl
      _ = i + 1 := by
          rw [assignRanks_get 0 _ i h2 h']
          simp

/-- The concrete sample scorer returns one score per pair. -/
theorem samplePredict_length (l : List (String × String)) :
    (samplePredict l).length = l.length := by
  simp [samplePredict]

/-- The concrete sample rerank output over `sampleDocs` has three entries. -/
theorem sample_rerank_length :
    (rerank samplePredict 32 "query" sampleDocs 20).length = 3 := by
  rw [rerank_length samplePredict (by decide) samplePredict_length "query" sampleDocs 20]
  decide

theorem sample_rerank_length_pos :
    0 < (rerank samplePredict 32 "query" sampleDocs 20).length := by
  rw [sample_rerank_length]
  decide

theorem sample_rerank_length_gt_one :
    0 + 1 < (rerank samplePredict 32 "query" sampleDocs 20).length := by
  rw [sample_rerank_length]
  decide

/-- Claim C1: for every rerank call with a non-empty document list and a
scoring function returning one score per pair, the output length is exactly
`min(len(documents), max_results)`; with `max_results` larger than the
document count the output is not padded. -/
theorem rerank_output_length (predict : List (String × String) → List Rat)
    {bs : Nat} (hbs : 1 ≤ bs) (hlen : ∀ l, (predict l).length = l.length)
    (query : String) (documents : List Document) (maxResults : Nat)
    (_hne : documents ≠ []) :
    (rerank predict bs query documents maxResults).length
      = min documents.length maxResults :=
  rerank_length predict hbs hlen query documents maxResults

/-- Witness for C1: three concrete documents with `max_results = 100` give
`min 3 100 = 3` results, not a padded hundred. -/
theorem rerank_output_length_witness :
    (rerank samplePredict 32 "query" sampleDocs 100).length
      = min sampleDocs.length 100 :=
  rerank_output_length samplePredict (by decide) samplePredict_length
    "query" sampleDocs 100 (by decide)

/-- Claim C2: the ranks of the output form the contiguous sequence
`1, 2, ..., len(output)`: the entry at 0-based output position `i` carries
rank `i + 1`, so there are no duplicates and no gaps. -/
theorem rerank_ranks_contiguous (predict : List (String × String) → List Rat)
    (bs : Nat) (query : String) (documents : List Document) (maxResults : Nat)
    (i : Nat) (h : i < (rerank predict bs query documents maxResults).length) :
    ((rerank predict bs query documents maxResults).get ⟨i, h⟩).rank = i + 1 :=
  rerank_get_rank predict bs query documents maxResults i h

/-- Witness for C2 at position 0 of a concrete rerank call. -/
theorem rerank_ranks_contiguous_witness :
    ((rerank samplePredict 32 "query" sampleDocs 20).get
      ⟨0, sample_rerank_length_pos⟩).rank = 0 + 1 :=
  rerank_ranks_contiguous samplePredict 32 "query" sampleDocs 20 0
    sample_rerank_length_pos

/-- Claim C3: the output scores are non-increasing along the ranked order:
each entry's score is at least the next entry's score. -/
theorem rerank_scores_nonincreasing (predict : List (String × String) → List Rat)
    (bs : Nat) (query : String) (documents : List Document) (maxResults : Nat)
    (i : Nat) (h : i + 1 < (rerank predict bs query documents maxResults).length) :
    ((rerank predict bs query documents maxResults).get ⟨i + 1, h⟩).score
      ≤ ((rerank predict bs query documents maxResults).get
          ⟨i, Nat.lt_of_succ_lt h⟩).score := by
  have hp := rerank_scores_pairwise predict bs query documents maxResults
  rw [List.pairwise_map] at hp
  exact List.pairwise_iff_get.mp hp ⟨i, Nat.lt_of_succ_lt h⟩ ⟨i + 1, h⟩
    (Nat.lt_succ_self i)

/-- Witness for C3 at consecutive positions 0 and 1 of a concrete rerank
call. -/
theorem rerank_scores_nonincreasing_witness :
    ((rerank samplePredict 32 "query" sampleDocs 20).get
        ⟨0 + 1, sample_rerank_length_gt_one⟩).score
      ≤ ((rerank samplePredict 32 "query" sampleDocs 20).get
          ⟨0, Nat.lt_of_succ_lt sample_rerank_length_gt_one⟩).score :=
  rerank_scores_nonincreasing samplePredict 32 "query" sampleDocs 20 0
    sample_rerank_length_gt_one

/-- Claim C6: scoring the pairs in consecutive batches of the configured batch
size and concatenating the per-batch score lists in batch order equals
invoking the scoring function once on the whole pair list, for every scoring
function that maps each pair to its score independently of the other pairs in
the call. -/
theorem scorePairs_eq_single_call (f : String × String → Rat)
    (predict : List (String × String) → List Rat) {bs : Nat} (hbs : 1 ≤ bs)
    (hpred : ∀ l, predict l = l.map f) (pairs : List (String × String)) :
    scorePairs predict bs pairs = predict pairs := by
  rw [scorePairs_map f predict hbs hpred pairs, hpred]

/-- Witness for C6: batch size 2 over three concrete pairs. -/
theorem scorePairs_eq_single_call_witness :
    scorePairs samplePredict 2 [("q", "alpha"), ("q", "beta"), ("q", "gamma")]
      = samplePredict [("q", "alpha"), ("q", "beta"), ("q", "gamma")] :=
  scorePairs_eq_single_call sampleScore samplePredict (by decide)
    (fun _ => rfl) [("q", "alpha"), ("q", "beta"), ("q", "gamma")]

/-- Claim C8: with an empty document list, `rerank` returns the empty sequence
(reranker.py lines 79-80) and the batching loop over the (empty) pair list has
no batches, so the scoring function is never invoked. -/
theorem rerank_empty_documents (predict : List (String × String) → List Rat)
    (bs : Nat) (query : String) (maxResults : Nat) :
    rerank predict bs query [] maxResults = [] ∧
      batches bs (makePairs query []) = [] :=
  ⟨rfl, rfl⟩

/-- Claim C5: when the input documents have pairwise distinct ids (and the
scoring function returns one score per pair), the output ids are pairwise
distinct and each of them is the id of one of the input documents: no id is
invented and none is duplicated; entries are dropped only by the
`max_results` truncation. -/
theorem rerank_ids_faithful (predict : List (String × String) → List Rat)
    {bs : Nat} (hbs : 1 ≤ bs) (hlen : ∀ l, (predict l).length = l.length)
    (query : String) (documents : List Document) (maxResults : Nat)
    (hnodup : (documents.map fun d => d.id).Nodup) :
    ((rerank predict bs query documents maxResults).map fun d => d.id).Nodup ∧
      ∀ x ∈ (rerank predict bs query documents maxResults).map fun d => d.id,
        x ∈ documents.map fun d => d.id := by
  cases documents with
  | nil => simp [rerank]
  | cons d ds =>
    rw [rerank_cons_eq, assignRanks_map_id, List.map_take]
    have hperm : List.Perm
        (((scoredDocsOf predict bs query (d :: ds)).mergeSort
          scoreDescLe).map fun x => x.id)
        ((d :: ds).map fun x => x.id) := by
      have hm := (List.mergeSort_perm (scoredDocsOf predict bs query (d :: ds))
        scoreDescLe).map (fun x => x.id)
      rw [map_id_scoredDocsOf predict hbs hlen] at hm
      exact hm
    constructor
    · exact (List.take_sublist _ _).nodup (hperm.nodup_iff.mpr hnodup)
    · intro x hx
      exact hperm.mem_iff.mp (List.take_subset _ _ hx)

/-- Witness for C5: a concrete call with three distinct ids. -/
theorem rerank_ids_faithful_witness :
    ((rerank samplePredict 32 "query" sampleDocs 2).map fun d => d.id).Nodup ∧
      ∀ x ∈ (rerank samplePredict 32 "query" sampleDocs 2).map fun d => d.id,
        x ∈ sampleDocs.map fun d => d.id :=
  rerank_ids_faithful samplePredict (by decide) samplePredict_length
    "query" sampleDocs 2 (by decide)

/-- If the batch loop completed without raising, every batch was scored
successfully. -/
theorem scoreBatchesE_ok_of_mem {ε : Type}
    (predict : List (String × String) → Except ε (List Rat)) :
    ∀ (batchList : List (List (String × String))) (v : List Rat),
      scoreBatchesE predict batchList = .ok v →
      ∀ b ∈ batchList, ∃ w, predict b = .ok w := by
  intro batchList
  induction batchList with
  | nil =>
    intro v _ b hb
    simp at hb
  | cons b0 rest ih =>
    intro v hok b hb
    cases hpb : predict b0 with
    | error e =>
      rw [scoreBatchesE, hpb] at hok
      cases hok
    | ok s =>
      cases hrest : scoreBatchesE predict rest with
      | error e =>
        rw [scoreBatchesE, hpb, hrest] at hok
        cases hok
      | ok r =>
        rcases List.mem_cons.mp hb with rfl | hmem
        · exact ⟨s, hpb⟩
        · exact ih r hrest b hmem

/-- Claim C7: if the scoring function raises on any batch of a rerank call,
`rerank` propagates an error to its caller (the one raised by the first
failing batch, with no retry) and produces no ScoredDocument sequence: no
partial result is returned. -/
theorem rerankE_propagates_scoring_error {ε : Type}
    (predict : List (String × String) → Except ε (List Rat))
    (bs : Nat) (query : String) (documents : List Document) (maxResults : Nat)
    (hne : documents ≠ []) (b : List (String × String)) (e : ε)
    (hb : b ∈ batches bs (makePairs query documents))
    (herr : predict b = .error e) :
    ∃ e' : ε, rerankE predict bs query documents maxResults = .error e' ∧
      ∀ v, rerankE predict bs query documents maxResults ≠ .ok v := by
  cases documents with
  | nil => exact absurd rfl hne
  | cons d ds =>
    cases hsc : scorePairsE predict bs (makePairs query (d :: ds)) with
    | ok v =>
      obtain ⟨w, hw⟩ := scoreBatchesE_ok_of_mem predict
        (batches bs (makePairs query (d :: ds))) v hsc b hb
      rw [herr] at hw
      cases hw
    | error e' =>
      refine ⟨e', ?_, ?_⟩
      · simp [rerankE, hsc]
      · intro v
        simp [rerankE, hsc]

/-- Witness for C7: a scorer that always raises, on a two-document call with
batch size 1; the first batch fails. -/
theorem rerankE_propagates_scoring_error_witness :
    ∃ e' : String, rerankE failPredict 1 "q" tieDocs 20 = .error e' ∧
      ∀ v, rerankE failPredict 1 "q" tieDocs 20 ≠ .ok v :=
  rerankE_propagates_scoring_error failPredict 1 "q" tieDocs 20 (by decide)
    [("q", "alpha")] "inference backend failure" (by decide) rfl

/-- Concrete evaluation: under the constant-zero scorer, the two tied
documents keep their input order and receive equal scores with ranks 1, 2. -/
theorem rerank_zero_tie_eval :
    rerank zeroPredict 1 "q" tieDocs 20 =
      [{ id := "a", score := 0, rank := 1 }, { id := "b", score := 0, rank := 2 }] := by
  have hsd : scoredDocsOf zeroPredict 1 "q" tieDocs =
      [{ id := "a", score := 0, rank := 0 }, { id := "b", score := 0, rank := 0 }] := rfl
  have hstep : rerank zeroPredict 1 "q" tieDocs 20
      = assignRanks 0 (((scoredDocsOf zeroPredict 1 "q" tieDocs).mergeSort
          scoreDescLe).take 20) := rfl
  rw [hstep, hsd, List.mergeSort_of_sorted (by decide)]
  rfl

/-- Counterexample for C4: the claim asserts strictly decreasing scores across
consecutive ranks for every input, but a scoring function that assigns equal
scores to distinct documents yields consecutive ranks with equal scores. -/
theorem rerank_strict_decrease_counterexample :
    ¬ ∀ (predict : List (String × String) → List Rat) (bs : Nat) (query : String)
        (documents : List Document) (maxResults : Nat) (a b : ScoredDocument),
        a ∈ rerank predict bs query documents maxResults →
        b ∈ rerank predict bs query documents maxResults →
        b.rank = a.rank + 1 → a.score > b.score := by
  intro hclaim
  have ha : ({ id := "a", score := 0, rank := 1 } : ScoredDocument)
      ∈ rerank zeroPredict 1 "q" tieDocs 20 := by
    rw [rerank_zero_tie_eval]
    decide
  have hb : ({ id := "b", score := 0, rank := 2 } : ScoredDocument)
      ∈ rerank zeroPredict 1 "q" tieDocs 20 := by
    rw [rerank_zero_tie_eval]
    decide
  have hgt := hclaim zeroPredict 1 "q" tieDocs 20 _ _ ha hb rfl
  exact absurd hgt (by decide)

/-- Claim C4 (amended): ranks are assigned in non-increasing score order: the
entry with rank `i` has a score at least (not necessarily strictly greater
than) that of the entry with rank `i + 1`; strict decrease can fail when the
scoring function assigns equal scores to distinct documents, because the sort
preserves ties. -/
theorem rerank_rank_order_scores (predict : List (String × String) → List Rat)
    (bs : Nat) (query : String) (documents : List Document) (maxResults : Nat)
    (a b : ScoredDocument)
    (ha : a ∈ rerank predict bs query documents maxResults)
    (hb : b ∈ rerank predict bs query documents maxResults)
    (hrank : b.rank = a.rank + 1) : b.score ≤ a.score := by
  obtain ⟨⟨i, hi⟩, hga⟩ := List.get_of_mem ha
  obtain ⟨⟨j, hj⟩, hgb⟩ := List.get_of_mem hb
  have hra : a.rank = i + 1 := by
    rw [← hga]
    exact rerank_get_rank predict bs query documents maxResults i hi
  have hrb : b.rank = j + 1 := by
    rw [← hgb]
    exact rerank_get_rank predict bs query documents maxResults j hj
  have hj' : j = i + 1 := by omega
  subst hj'
  have hp := rerank_scores_pairwise predict bs query documents maxResults
  rw [List.pairwise_map] at hp
  have hle := List.pairwise_iff_get.mp hp ⟨i, Nat.lt_of_succ_lt hj⟩ ⟨i + 1, hj⟩
    (Nat.lt_succ_self i)
  rw [← hga, ← hgb]
  exact hle

/-- Witness for the amended C4 at the concrete tied call. -/
theorem rerank_rank_order_scores_witness :
    ({ id := "b", score := 0, rank := 2 } : ScoredDocument).score
      ≤ ({ id := "a", score := 0, rank := 1 } : ScoredDocument).score :=
  rerank_rank_order_scores zeroPredict 1 "q" tieDocs 20 _ _
    (by rw [rerank_zero_tie_eval]; decide)
    (by rw [rerank_zero_tie_eval]; decide) rfl

/-- Claim C9 (evaluation of the handler at the failing inputs): with an
initialized reranker, a request with an empty query — or an empty document
list — that reaches the handler is answered 500, not 400: the
`HTTPException(400, ...)` raised inside the `try` block is caught by the
`except Exception` clause (`fastapi.HTTPException` subclasses `Exception`) and
re-raised as `HTTPException(500, "Internal server error: " + str(e))`. The
503 branch for an uninitialized reranker behaves as the claim states. -/
theorem handleRerank_empty_inputs_give_500 :
    handleRerank true okPredict 32 "" tieDocs (some 10)
        = .httpError 500 "Internal server error: 400: Query cannot be empty" ∧
      handleRerank true okPredict 32 "q" [] (some 10)
        = .httpError 500 "Internal server error: 400: Documents list cannot be empty" ∧
      handleRerank false okPredict 32 "q" tieDocs (some 10)
        = .httpError 503 "Reranker service is not available" := by
  refine ⟨?_, ?_, ?_⟩ <;> rfl

theorem zip_self_map {α β : Type} (g : α → β) (l : List α) :
    l.zip (l.map g) = l.map fun a => (a, g a) := by
  induction l with
  | nil => rfl
  | cons a t ih => simp [ih]

/-- With a per-pair scoring function, the scored records are the documents in
order, each paired with the score of its (query, content) pair. -/
theorem scoredDocsOf_eq_map (f : String × String → Rat)
    (predict : List (String × String) → List Rat) {bs : Nat} (hbs : 1 ≤ bs)
    (hpred : ∀ l, predict l = l.map f) (query : String)
    (documents : List Document) :
    scoredDocsOf predict bs query documents
      = documents.map fun d =>
          { id := d.id, score := f (query, d.content), rank := 0 : ScoredDocument } := by
  unfold scoredDocsOf
  rw [scorePairs_map f predict hbs hpred]
  unfold makePairs
  rw [List.map_map, zip_self_map (f ∘ fun d => (query, d.content)) documents,
    List.map_map]
  rfl

/-- The two entries at positions `i < j` form a sublist. -/
theorem pair_get_sublist {α : Type} :
    ∀ (l : List α) (i j : Nat) (hij : i < j) (hj : j < l.length),
      List.Sublist [l.get ⟨i, Nat.lt_trans hij hj⟩, l.get ⟨j, hj⟩] l := by
  intro l
  induction l with
  | nil =>
    intro i j hij hj
    simp at hj
  | cons a t ih =>
    intro i j hij hj
    cases i with
    | zero =>
      cases j with
      | zero => omega
      | succ m =>
        apply List.Sublist.cons₂
        rw [List.singleton_sublist]
        exact List.get_mem t m (by simpa using hj)
    | succ n =>
      cases j with
      | zero => omega
      | succ m =>
        exact List.Sublist.cons a (ih n m (by omega) (by simpa using hj))

/-- In a list without duplicates, the index of the element at position `k` is
`k` itself. -/
theorem indexOf_eq_of_get {α : Type} [DecidableEq α] (l : List α) (hnd : l.Nodup)
    (k : Fin l.length) : l.indexOf (l.get k) = k.val := by
  have hmem : l.get k ∈ l := List.get_mem l k.val k.isLt
  have hlt : l.indexOf (l.get k) < l.length := List.indexOf_lt_length.mpr hmem
  have hgi : l.get ⟨l.indexOf (l.get k), hlt⟩ = l.get k := List.indexOf_get hlt
  have hfin := (hnd.get_inj_iff).mp hgi
  exact congrArg Fin.val hfin

/-- Truncation to a front segment does not change the index of a surviving
element. -/
theorem indexOf_take {α : Type} [DecidableEq α] (x : α) :
    ∀ (l : List α) (m : Nat), x ∈ l.take m → (l.take m).indexOf x = l.indexOf x := by
  intro l
  induction l with
  | nil =>
    intro m hx
    simp at hx
  | cons a t ih =>
    intro m hx
    cases m with
    | zero => simp at hx
    | succ n =>
      rw [List.take_succ_cons] at hx ⊢
      by_cases hax : a = x
      · subst hax
        rw [List.indexOf_cons_self, List.indexOf_cons_self]
      · have hx' : x ∈ t.take n := by
          rcases List.mem_cons.mp hx with h | h
          · exact absurd h.symm hax
          · exact h
        rw [List.indexOf_cons_ne _ hax, List.indexOf_cons_ne _ hax, ih n hx']

/-- The output ids are the sorted ids truncated to `max_results`. -/
theorem rerank_map_id_eq (predict : List (String × String) → List Rat)
    (bs : Nat) (query : String) (documents : List Document) (maxResults : Nat)
    (hne : documents ≠ []) :
    (rerank predict bs query documents maxResults).map (fun d => d.id)
      = ((((scoredDocsOf predict bs query documents).mergeSort scoreDescLe).map
          fun d => d.id).take maxResults) := by
  cases documents with
  | nil => exact absurd rfl hne
  | cons d ds => rw [rerank_cons_eq, assignRanks_map_id, List.map_take]

/-- Projecting ids commutes with positional access. -/
theorem get_map_id (l : List ScoredDocument) (k : Fin l.length) :
    (l.map fun d => d.id).get ⟨k.val, by rw [List.length_map]; exact k.isLt⟩
      = (l.get k).id := by
  simp

/-- Claim C10: the descending sort is stable with respect to input position:
documents receiving equal scores keep their relative input order in the
output. Stated for inputs with pairwise distinct ids and a per-pair scoring
function `f`: if positions `i < j` score equally and both ids survive the
truncation, the id of document `i` appears strictly earlier in the output
than the id of document `j`. -/
theorem rerank_equal_scores_keep_input_order (f : String × String → Rat)
    (predict : List (String × String) → List Rat) {bs : Nat} (hbs : 1 ≤ bs)
    (hpred : ∀ l, predict l = l.map f) (query : String)
    (documents : List Document) (maxResults : Nat)
    (hnodup : (documents.map fun d => d.id).Nodup)
    (i j : Nat) (hij : i < j) (hj : j < documents.length)
    (heq : f (query, (documents.get ⟨j, hj⟩).content)
      = f (query, (documents.get ⟨i, Nat.lt_trans hij hj⟩).content))
    (hmemi : (documents.get ⟨i, Nat.lt_trans hij hj⟩).id
      ∈ (rerank predict bs query documents maxResults).map fun d => d.id)
    (hmemj : (documents.get ⟨j, hj⟩).id
      ∈ (rerank predict bs query documents maxResults).map fun d => d.id) :
    ((rerank predict bs query documents maxResults).map fun d => d.id).indexOf
        (documents.get ⟨i, Nat.lt_trans hij hj⟩).id
      < ((rerank predict bs query documents maxResults).map fun d => d.id).indexOf
        (documents.get ⟨j, hj⟩).id := by
  have hlen : ∀ l, (predict l).length = l.length := by
    intro l
    rw [hpred l, List.length_map]
  have hne : documents ≠ [] := by
    intro h
    rw [h] at hj
    simp at hj
  have houtids := rerank_map_id_eq predict bs query documents maxResults hne
  have hmap := scoredDocsOf_eq_map f predict hbs hpred query documents
  have hsubsds : List.Sublist
      [{ id := (documents.get ⟨i, Nat.lt_trans hij hj⟩).id,
         score := f (query, (documents.get ⟨i, Nat.lt_trans hij hj⟩).content),
         rank := 0 : ScoredDocument },
       { id := (documents.get ⟨j, hj⟩).id,
         score := f (query, (documents.get ⟨j, hj⟩).content),
         rank := 0 : ScoredDocument }]
      (scoredDocsOf predict bs query documents) := by
    rw [hmap]
    exact (pair_get_sublist documents i j hij hj).map fun d =>
      { id := d.id, score := f (query, d.content), rank := 0 : ScoredDocument }
  have hAB : scoreDescLe
      { id := (documents.get ⟨i, Nat.lt_trans hij hj⟩).id,
        score := f (query, (documents.get ⟨i, Nat.lt_trans hij hj⟩).content),
        rank := 0 }
      { id := (documents.get ⟨j, hj⟩).id,
        score := f (query, (documents.get ⟨j, hj⟩).content), rank := 0 } := by
    simp only [scoreDescLe, decide_eq_true_eq]
    exact le_of_eq heq
  have hsubsorted := List.pair_sublist_mergeSort scoreDescLe_trans
    scoreDescLe_total hAB hsubsds
  obtain ⟨emb, hemb⟩ :=
    List.sublist_iff_exists_fin_orderEmbedding_get_eq.mp hsubsorted
  have hperm : List.Perm
      (((scoredDocsOf predict bs query documents).mergeSort scoreDescLe).map
        fun d => d.id)
      (documents.map fun d => d.id) := by
    have hp := (List.mergeSort_perm (scoredDocsOf predict bs query documents)
      scoreDescLe).map (fun d => d.id)
    rw [map_id_scoredDocsOf predict hbs hlen] at hp
    exact hp
  have hnodup_sorted := hperm.nodup_iff.mpr hnodup
  have hk0 := get_map_id ((scoredDocsOf predict bs query documents).mergeSort
    scoreDescLe) (emb ⟨0, Nat.zero_lt_two⟩)
  have hk1 := get_map_id ((scoredDocsOf predict bs query documents).mergeSort
    scoreDescLe) (emb ⟨1, Nat.one_lt_two⟩)
  rw [← hemb ⟨0, Nat.zero_lt_two⟩] at hk0
  rw [← hemb ⟨1, Nat.one_lt_two⟩] at hk1
  have hid0 : _ = (documents.get ⟨i, Nat.lt_trans hij hj⟩).id := hk0
  have hid1 : _ = (documents.get ⟨j, hj⟩).id := hk1
  have hidx0 : (((scoredDocsOf predict bs query documents).mergeSort
      scoreDescLe).map fun d => d.id).indexOf
        (documents.get ⟨i, Nat.lt_trans hij hj⟩).id = (emb ⟨0, Nat.zero_lt_two⟩).val := by
    rw [← hid0]
    exact indexOf_eq_of_get _ hnodup_sorted _
  have hidx1 : (((scoredDocsOf predict bs query documents).mergeSort
      scoreDescLe).map fun d => d.id).indexOf
        (documents.get ⟨j, hj⟩).id = (emb ⟨1, Nat.one_lt_two⟩).val := by
    rw [← hid1]
    exact indexOf_eq_of_get _ hnodup_sorted _
  have hlt : (emb ⟨0, Nat.zero_lt_two⟩).val < (emb ⟨1, Nat.one_lt_two⟩).val := by
    have h01 : (⟨0, Nat.zero_lt_two⟩ : Fin 2) < (⟨1, Nat.one_lt_two⟩ : Fin 2) := by decide
    exact emb.lt_iff_lt.mpr h01
  rw [houtids] at hmemi hmemj ⊢
  rw [indexOf_take _ _ _ hmemi, indexOf_take _ _ _ hmemj, hidx0, hidx1]
  exact hlt

/-- Witness for C10: two documents tied at score 0 keep input order `a`
before `b`. -/
theorem rerank_equal_scores_keep_input_order_witness :
    ((rerank zeroPredict 1 "q" tieDocs 20).map fun d => d.id).indexOf
        (tieDocs.get ⟨0, by decide⟩).id
      < ((rerank zeroPredict 1 "q" tieDocs 20).map fun d => d.id).indexOf
        (tieDocs.get ⟨1, by decide⟩).id :=
  rerank_equal_scores_keep_input_order (fun _ => 0) zeroPredict (by decide)
    (fun _ => rfl) "q" tieDocs 20 (by decide) 0 1 (by decide) (by decide) rfl
    (by rw [rerank_zero_tie_eval]; decide) (by rw [rerank_zero_tie_eval]; decide)

end RerankerService
